import Mathlib

/-!
# Verification of the medviz volume/frame-extraction engine

A shallow embedding of the medviz library (`src/metadata.rs`, `src/voxel.rs`,
`src/volume.rs`, `src/utils.rs`) together with theorems settling the
specification claims.

Modelling conventions:

* Rust `usize` values are modelled as `Nat`; overflow of checked parsing is
  modelled explicitly against `2 ^ 64` (the library targets 64-bit platforms).
* Rust strings are modelled as `List Char`; `str::split`, `str::trim` and
  `str::split_whitespace` are modelled by structurally recursive functions on
  the character list.  The top-level entry point takes a Lean `String` and
  works on its character data.
* Byte buffers (`&[u8]`) are modelled as `List Nat`.
* Rust slicing `&data[i..j]`, which panics unless `i ≤ j ≤ len`, is modelled
  as an `Option`-returning range extraction: `none` models the panic.
* Iterator pipelines are modelled as list computations; a lazily produced
  element that is a `Result` in Rust becomes an `Except` value in the list.
* Rust `f32` arithmetic in the voxel normalization is modelled exactly by
  IEEE-754 binary32 round-to-nearest-even on dyadic rationals (represented as
  mantissa and denominator exponent, both naturals); the relevant value range
  never leaves the normal range of binary32, so no subnormal or infinity
  handling is needed.
* Whitespace and digit classification are modelled by `Char.isWhitespace` and
  `Char.isDigit`; all claim-relevant inputs are ASCII, where these agree with
  the Rust predicates used by the source.
-/

deriving instance DecidableEq for Except

namespace Medviz

/-! ## String primitives used by the metadata scanner -/

/-- Model of Rust `str::split(p)`: split the character list at every character
satisfying `p`, keeping empty pieces.  Always returns at least one piece. -/
def splitPred (p : Char → Bool) : List Char → List (List Char)
  | [] => [[]]
  | c :: rest =>
    let r := splitPred p rest
    if p c then [] :: r
    else
      match r with
      | h :: t => (c :: h) :: t
      | [] => [[c]]

/-- Model of Rust `str::trim` (restricted to the whitespace predicate of the
embedding): drop whitespace from both ends. -/
def trimChars (cs : List Char) : List Char :=
  ((cs.dropWhile Char.isWhitespace).reverse.dropWhile Char.isWhitespace).reverse

/-- Model of Rust `str::split_whitespace`: whitespace-separated tokens, with
empty tokens dropped. -/
def splitWsChars (cs : List Char) : List (List Char) :=
  (splitPred Char.isWhitespace cs).filter (fun t => t ≠ [])

/-! ## Metadata (`src/metadata.rs`) -/

/-- Metadata-related error type, mirroring `metadata::Err`. -/
inductive MdErr where
  /-- Found a DimSize key without any values. -/
  | invalidMd (lineNumber : Nat)
  /-- One of the `DimSize` values is invalid. -/
  | invalidValue (lineNumber : Nat) (value : String)
  /-- A duplicate `DimSize` key was found. -/
  | duplicateKey (lineNumber : Nat)
  /-- Could not find a `DimSize` key. -/
  | keyNotFound
  /-- Found too many values for `DimSize`. -/
  | tooManyValues (lineNumber : Nat)
deriving DecidableEq, Repr

/-- Volume metadata, mirroring `VolumeMd`. -/
structure VolumeMd where
  /-- Number of voxels on the X-axis. -/
  xdim : Nat
  /-- Number of voxels on the Y-axis. -/
  ydim : Nat
  /-- Number of voxels on the Z-axis. -/
  zdim : Nat
deriving DecidableEq, Repr

/-- The number of values of the platform size type (64-bit `usize`). -/
def usizeBound : Nat := 2 ^ 64

/-- The maximal leading run of ASCII digits of a token, as read bytewise by
`atoi::FromRadix10Checked`. -/
def leadingDigits (t : List Char) : List Char := t.takeWhile Char.isDigit

/-- Base-10 value of a digit run. -/
def digitsToNat (cs : List Char) : Nat := cs.foldl (fun acc c => 10 * acc + (c.toNat - 48)) 0

/-- Model of `usize::from_radix_10_checked(text.as_bytes())`: the checked
value of the maximal leading digit run (`none` on `usize` overflow; checked
arithmetic fails exactly when the run's value reaches `2 ^ 64`) together with
the number of bytes consumed. -/
def fromRadix10Checked (t : List Char) : Option Nat × Nat :=
  let ds := leadingDigits t
  let v := digitsToNat ds
  (if v < usizeBound then some v else none, ds.length)

/-- Model of the `parse_dimension_size!` macro body in
`VolumeMd::from_buffer`: reject when no byte was consumed (`rem == 0`) or on
overflow, otherwise return the parsed value. -/
def parseDim (t : List Char) (lineNumber : Nat) : Except MdErr Nat :=
  let p := fromRadix10Checked t
  if p.2 = 0 then .error (.invalidValue lineNumber (String.mk t))
  else
    match p.1 with
    | some d => .ok d
    | none => .error (.invalidValue lineNumber (String.mk t))

/-- The trimmed key of a line: the text before the first `=` (the whole line
when it has no `=`), trimmed — `entry.next()` followed by `.trim()` in
`VolumeMd::from_buffer`. -/
def lineKey (line : List Char) : List Char :=
  trimChars (((splitPred (fun c => c = '=') line).headD []))

/-- One iteration of the line loop of `VolumeMd::from_buffer`: given the line,
its 1-based number and the accumulated result, either skip the line, accept a
`DimSize` entry, or fail. -/
def lineStep (line : List Char) (lineNumber : Nat) (res : Option VolumeMd) :
    Except MdErr (Option VolumeMd) :=
  let pieces := splitPred (fun c => c = '=') line
  let key := lineKey line
  if key = [] then .ok res
  else if key ≠ "DimSize".data then .ok res
  else if res.isSome then .error (.duplicateKey lineNumber)
  else
    match pieces.get? 1 with
    | none => .error (.invalidMd lineNumber)
    | some value =>
      match splitWsChars (trimChars value) with
      | xt :: yt :: zt :: rest =>
        if rest.isEmpty then
          match parseDim xt lineNumber with
          | .error e => .error e
          | .ok x =>
            match parseDim yt lineNumber with
            | .error e => .error e
            | .ok y =>
              match parseDim zt lineNumber with
              | .error e => .error e
              | .ok z => .ok (some ⟨x, y, z⟩)
        else .error (.tooManyValues lineNumber)
      | _ => .error (.invalidMd lineNumber)

/-- The line loop of `VolumeMd::from_buffer` over the remaining lines,
carrying the next 1-based line number and the accumulated result. -/
def processLines : List (List Char) → Nat → Option VolumeMd → Except MdErr VolumeMd
  | [], _, none => .error .keyNotFound
  | [], _, some r => .ok r
  | l :: ls, n, res =>
    match lineStep l n res with
    | .error e => .error e
    | .ok res' => processLines ls (n + 1) res'

/-- Model of `VolumeMd::from_buffer`. -/
def VolumeMd.from_buffer (buffer : String) : Except MdErr VolumeMd :=
  processLines (splitPred (fun c => c = '\n') buffer.data) 1 none

/-- Spec-claimed variant of the line handler (claim C6), following the spec's
words rather than the source: the line is split at the FIRST `=` only, the
entire remainder of the line (which may contain further `=`) is the value, and
a line containing no `=` at all is skipped.  Used only to compare against the
source behavior `lineStep`. -/
def lineStepFirstSplit (line : List Char) (lineNumber : Nat) (res : Option VolumeMd) :
    Except MdErr (Option VolumeMd) :=
  let keyPart := line.takeWhile (fun c => ¬ c = '=')
  if keyPart.length = line.length then .ok res
  else
    let key := trimChars keyPart
    let value := line.drop (keyPart.length + 1)
    if key = [] then .ok res
    else if key ≠ "DimSize".data then .ok res
    else if res.isSome then .error (.duplicateKey lineNumber)
    else
      match splitWsChars (trimChars value) with
      | xt :: yt :: zt :: rest =>
        if rest.isEmpty then
          match parseDim xt lineNumber with
          | .error e => .error e
          | .ok x =>
            match parseDim yt lineNumber with
            | .error e => .error e
            | .ok y =>
              match parseDim zt lineNumber with
              | .error e => .error e
              | .ok z => .ok (some ⟨x, y, z⟩)
        else .error (.tooManyValues lineNumber)
      | _ => .error (.invalidMd lineNumber)

/-- Spec-claimed variant of the line loop (claim C6), driving
`lineStepFirstSplit`. -/
def processLinesFirstSplit : List (List Char) → Nat → Option VolumeMd → Except MdErr VolumeMd
  | [], _, none => .error .keyNotFound
  | [], _, some r => .ok r
  | l :: ls, n, res =>
    match lineStepFirstSplit l n res with
    | .error e => .error e
    | .ok res' => processLinesFirstSplit ls (n + 1) res'

/-- Spec-claimed variant of `VolumeMd::from_buffer` (claim C6): first-`=`-only
splitting with the full remainder as value, and lines without `=` skipped. -/
def fromBufferFirstSplit (buffer : String) : Except MdErr VolumeMd :=
  processLinesFirstSplit (splitPred (fun c => c = '\n') buffer.data) 1 none

/-- Number of voxels in a frame on the X-axis (`VolumeMd::xframe_len`). -/
def VolumeMd.xframe_len (md : VolumeMd) : Nat := md.ydim * md.zdim

/-- Number of voxels in a frame on the Y-axis (`VolumeMd::yframe_len`). -/
def VolumeMd.yframe_len (md : VolumeMd) : Nat := md.xdim * md.zdim

/-- Number of voxels in a frame on the Z-axis (`VolumeMd::zframe_len`). -/
def VolumeMd.zframe_len (md : VolumeMd) : Nat := md.xdim * md.ydim

/-! ## Voxels (`src/voxel.rs`) -/

/-- Library error type, mirroring the variants of `MedvizErr` that the
embedded code can produce. -/
inductive MedvizErr where
  /-- Value is out of range. -/
  | voxelValueOOR (value : Nat)
  /-- Data size does not match metadata information. -/
  | dataSizeMismatch (actual expected : Nat)
  /-- Data size is uneven. -/
  | dataSizeUneven (size : Nat)
deriving DecidableEq, Repr

namespace Voxel

/-- The size of a voxel in bytes (`Voxel::size`, `size_of::<u16>()`). -/
def size : Nat := 2

/-- Model of `Voxel::from`: a validated voxel is represented by its raw value.
Fails if the value is out of the 0-4095 (12-bit) range. -/
def fromVal (value : Nat) : Except MedvizErr Nat :=
  if value > 4095 then .error (.voxelValueOOR value) else .ok value

/-- Model of `Voxel::from_array`: decode two little-endian bytes
(`u16::from_le_bytes`), then validate. -/
def from_array (b0 b1 : Nat) : Except MedvizErr Nat :=
  fromVal (b0 + 256 * b1)

/-- Model of `Voxel::from_slice`: reads the first two bytes of the slice;
`none` models the panic when the slice holds fewer than 2 bytes. -/
def from_slice (s : List Nat) : Option (Except MedvizErr Nat) :=
  match s with
  | b0 :: b1 :: _ => some (from_array b0 b1)
  | _ => none

end Voxel

/-! ## Volume (`src/volume.rs`) -/

/-- Model of Rust slicing `&data[i..j]`: `none` models the panic when the
range is invalid. -/
def sliceRange (data : List Nat) (i j : Nat) : Option (List Nat) :=
  if i ≤ j ∧ j ≤ data.length then some ((data.drop i).take (j - i)) else none

/-- Sequence a list of possibly-panicking computations: `none` as soon as any
element is `none` (models a panic surfacing from iterator consumption). -/
def collect {α : Type} : List (Option α) → Option (List α)
  | [] => some []
  | none :: _ => none
  | some a :: rest => (collect rest).map (fun l => a :: l)

/-- Model of `slice::chunks(2)`: consecutive pairs, with a trailing singleton
chunk when the length is odd. -/
def chunks2 : List Nat → List (List Nat)
  | [] => []
  | [a] => [[a]]
  | a :: b :: rest => [a, b] :: chunks2 rest

/-- Volume data, mirroring `Volume`: metadata plus the borrowed byte
buffer. -/
structure Volume where
  /-- Metadata related to the volume. -/
  metadata : VolumeMd
  /-- Data related to the volume. -/
  data : List Nat
deriving DecidableEq, Repr

namespace Volume

/-- Model of `Volume::from_slice`. -/
def from_slice (metadata : VolumeMd) (data : List Nat) : Except MedvizErr Volume :=
  let expected := metadata.xdim * metadata.ydim * metadata.zdim * Voxel.size
  if data.length ≠ expected then .error (.dataSizeMismatch data.length expected)
  else if data.length % Voxel.size ≠ 0 then .error (.dataSizeUneven data.length)
  else .ok ⟨metadata, data⟩

/-- Model of `Volume::zframe_bytes`: the byte slice of a frame on the
Z-axis. -/
def zframe_bytes (v : Volume) (zframe_index : Nat) : Option (List Nat) :=
  let zframe_size := v.metadata.zframe_len * Voxel.size
  sliceRange v.data (zframe_size * zframe_index) (zframe_size * zframe_index + zframe_size)

/-- Model of `Volume::zframe_iter`: voxels of a frame on the Z-axis. -/
def zframe_iter (v : Volume) (zframe_index : Nat) : Option (List (Except MedvizErr Nat)) :=
  (v.zframe_bytes zframe_index).bind fun bytes =>
    collect ((chunks2 bytes).map Voxel.from_slice)

/-- Model of `Volume::zframe_row_bytes`: the byte slice of a row on a frame on
the Z-axis. -/
def zframe_row_bytes (v : Volume) (zframe_index row_index : Nat) : Option (List Nat) :=
  let row_size := v.metadata.xdim * Voxel.size
  (v.zframe_bytes zframe_index).bind fun zframe =>
    sliceRange zframe (row_size * row_index) (row_size * row_index + row_size)

/-- Model of `Volume::zframe_row_iter`: voxels of a row on a frame on the
Z-axis. -/
def zframe_row_iter (v : Volume) (zframe_index row_index : Nat) :
    Option (List (Except MedvizErr Nat)) :=
  (v.zframe_row_bytes zframe_index row_index).bind fun bytes =>
    collect ((chunks2 bytes).map Voxel.from_slice)

/-- Model of `Volume::zframe_voxel_bytes`: the 2-byte slice of one voxel on a
frame on the Z-axis. -/
def zframe_voxel_bytes (v : Volume) (zframe_index x y : Nat) : Option (List Nat) :=
  (v.zframe_row_bytes zframe_index y).bind fun row =>
    sliceRange row (x * Voxel.size) (x * Voxel.size + Voxel.size)

/-- Model of `Volume::zframe_col_iter`: voxels of a column on a frame on the
Z-axis, read as `ydim` independent non-contiguous accesses. -/
def zframe_col_iter (v : Volume) (frame_index col_index : Nat) :
    Option (List (Except MedvizErr Nat)) :=
  collect ((List.range v.metadata.ydim).map fun row_index =>
    (v.zframe_voxel_bytes frame_index col_index row_index).bind Voxel.from_slice)

/-- Model of `Volume::xframe`: Z-frames visited in reverse order, the relevant
column of each, flattened, enumerated, with coordinates `(i % ydim, i / ydim)`. -/
def xframe (v : Volume) (xframe_index : Nat) :
    Option (List (Except MedvizErr Nat × Nat × Nat)) :=
  (collect ((List.range v.metadata.zdim).reverse.map fun zframe_index =>
      v.zframe_col_iter zframe_index xframe_index)).map fun parts =>
    parts.flatten.enum.map fun p => (p.2, p.1 % v.metadata.ydim, p.1 / v.metadata.ydim)

/-- Model of `Volume::yframe`: Z-frames visited in reverse order, the relevant
row of each, flattened, enumerated, with coordinates `(i % xdim, i / xdim)`. -/
def yframe (v : Volume) (yframe_index : Nat) :
    Option (List (Except MedvizErr Nat × Nat × Nat)) :=
  (collect ((List.range v.metadata.zdim).reverse.map fun zframe_index =>
      v.zframe_row_iter zframe_index yframe_index)).map fun parts =>
    parts.flatten.enum.map fun p => (p.2, p.1 % v.metadata.xdim, p.1 / v.metadata.xdim)

/-- Model of `Volume::zframe`: the contiguous Z-frame scan, enumerated, with
coordinates `(i % xdim, i / xdim)`. -/
def zframe (v : Volume) (zframe_index : Nat) :
    Option (List (Except MedvizErr Nat × Nat × Nat)) :=
  (v.zframe_iter zframe_index).map fun l =>
    l.enum.map fun p => (p.2, p.1 % v.metadata.xdim, p.1 / v.metadata.xdim)

end Volume

/-! ## Voxel normalization (`src/utils.rs` `normalize`,
`Voxel::value_normalized`)

The Rust code computes `((f32::from(v) / 4095.0) * 255.0).round()` and casts
to `u8`.  We model the two `f32` operations exactly: each IEEE-754 binary32
operation produces the correctly rounded (round-to-nearest, ties-to-even)
value of the exact result.  All intermediate values lie well inside the normal
range of binary32, and every value in sight is a nonneg dyadic rational, which
we represent as a pair `(m, d)` denoting `m / 2 ^ d`. -/

/-- Round `a / b` (with `b > 0`) to the nearest integer, ties to even. -/
def roundEvenDiv (a b : Nat) : Nat :=
  let q := a / b
  let r := a % b
  if 2 * r < b then q
  else if b < 2 * r then q + 1
  else if q % 2 = 0 then q else q + 1

/-- The binade of `v / 4095` for `1 ≤ v ≤ 4095`: the least `j` such that
`v / 4095 ≥ 2 ^ (-j)`, i.e. `4095 ≤ v * 2 ^ j`. -/
def binadeIndex (v : Nat) : Nat :=
  (((List.range 13).filter (fun j => 4095 ≤ v * 2 ^ j)).headD 0)


/-- The exact value computed by `(f32::from(v) / 4095.0) * 255.0` in binary32
arithmetic, as a dyadic pair `(m, d)` meaning `m / 2 ^ d`.  The division and
the multiplication are each rounded to 24 significant bits, to nearest with
ties to even. -/
def normalizedDyadic (v : Nat) : Nat × Nat :=
  if v = 0 then (0, 0)
  else
    let j := binadeIndex v
    -- binary32 division: v / 4095 = m1 / 2 ^ (23 + j) with 2^23 ≤ m1 ≤ 2^24
    let m1 := roundEvenDiv (v * 2 ^ (23 + j)) 4095
    -- exact product with 255: p / 2 ^ (23 + j)
    let p := m1 * 255
    -- binary32 rounding of the product to 24 significant bits: the quotient
    -- mantissa m1 lies in [2^23, 2^24), so p = m1 * 255 has 31 or 32 binary
    -- digits and the mantissa must be shifted right by 7 or 8 places
    let shift := if p < 2 ^ 31 then 7 else 8
    let m2 := roundEvenDiv p (2 ^ shift)
    (m2, 23 + j - shift)

/-- Model of `utils::normalize` / `Voxel::value_normalized`: the binary32
result of `(v / 4095.0) * 255.0`, rounded by `f32::round` (to nearest, ties
away from zero; the argument is nonnegative, so this is `⌊x + 1/2⌋`). -/
def normalize (voxel : Nat) : Nat :=
  let md := normalizedDyadic voxel
  (md.1 + 2 ^ md.2 / 2) / 2 ^ md.2

/-- Model of `Voxel::value_normalized` (`src/voxel.rs`): its body is the same
computation as `utils::normalize`. -/
def Voxel.value_normalized (value : Nat) : Nat := normalize value

/-- Bounded conjunction checker over `[lo, lo + len)` with balanced splitting,
structurally recursive in `fuel` so that its evaluation recursion depth stays
logarithmic in `len`. -/
def allBelow (p : Nat → Bool) : Nat → Nat → Nat → Bool
  | 0, _, len => decide (len = 0)
  | fuel + 1, lo, len =>
    if len ≤ 1 then (if len = 0 then true else p lo)
    else allBelow p fuel lo (len / 2) && allBelow p fuel (lo + len / 2) (len - len / 2)

/-! ## General lemmas about the iterator model -/

theorem allBelow_sound (p : Nat → Bool) :
    ∀ (fuel lo len : Nat), allBelow p fuel lo len = true → ∀ i, i < len → p (lo + i) = true := by
  intro fuel
  induction fuel with
  | zero =>
    intro lo len h i hi
    simp only [allBelow] at h
    have hz : len = 0 := of_decide_eq_true h
    omega
  | succ fuel ih =>
    intro lo len h i hi
    simp only [allBelow] at h
    by_cases hl : len ≤ 1
    · rw [if_pos hl] at h
      have hlen1 : len = 1 := by omega
      subst hlen1
      have hi0 : i = 0 := by omega
      subst hi0
      simpa using h
    · rw [if_neg hl] at h
      rw [Bool.and_eq_true] at h
      obtain ⟨h1, h2⟩ := h
      by_cases hi2 : i < len / 2
      · exact ih lo (len / 2) h1 i hi2
      · have hi3 : i - len / 2 < len - len / 2 := by omega
        have hres := ih (lo + len / 2) (len - len / 2) h2 (i - len / 2) hi3
        have e : lo + len / 2 + (i - len / 2) = lo + i := by omega
        rwa [e] at hres

/-! ## Lemmas about the metadata scanner -/

theorem parseDim_ok (t : List Char) (n : Nat) (h1 : leadingDigits t ≠ [])
    (h2 : digitsToNat (leadingDigits t) < usizeBound) :
    parseDim t n = .ok (digitsToNat (leadingDigits t)) := by
  simp only [parseDim, fromRadix10Checked]
  rw [if_pos h2, if_neg (fun hlen => h1 (List.length_eq_zero.mp hlen))]

theorem parseDim_err (t : List Char) (n : Nat)
    (h : leadingDigits t = [] ∨ usizeBound ≤ digitsToNat (leadingDigits t)) :
    parseDim t n = .error (.invalidValue n (String.mk t)) := by
  simp only [parseDim, fromRadix10Checked]
  rcases h with h | h
  · rw [h]
    rfl
  · rw [if_neg (Nat.not_lt.mpr h)]
    by_cases hlen : (leadingDigits t).length = 0
    · rw [if_pos hlen]
    · rw [if_neg hlen]

theorem lineStep_skip (line : List Char) (n : Nat) (res : Option VolumeMd)
    (h : lineKey line ≠ "DimSize".data) : lineStep line n res = .ok res := by
  simp only [lineStep]
  by_cases hk : lineKey line = []
  · rw [if_pos hk]
  · rw [if_neg hk, if_pos h]

theorem lineStep_dup (line : List Char) (n : Nat) (r : VolumeMd)
    (h : lineKey line = "DimSize".data) :
    lineStep line n (some r) = .error (.duplicateKey n) := by
  simp only [lineStep]
  rw [if_neg (by rw [h]; decide), if_neg (by simp [h]), if_pos (by rfl)]

theorem lineStep_accept (line : List Char) (n : Nat) (v xt yt zt : List Char) (x y z : Nat)
    (hkey : lineKey line = "DimSize".data)
    (hval : (splitPred (fun c => c = '=') line).get? 1 = some v)
    (htoks : splitWsChars (trimChars v) = [xt, yt, zt])
    (hx : parseDim xt n = .ok x) (hy : parseDim yt n = .ok y)
    (hz : parseDim zt n = .ok z) :
    lineStep line n none = .ok (some ⟨x, y, z⟩) := by
  simp only [lineStep]
  rw [if_neg (by rw [hkey]; decide), if_neg (by simp [hkey]), if_neg (by simp)]
  simp only [hval, htoks, List.isEmpty_nil, if_true, hx, hy, hz]

theorem lineStep_err1 (line : List Char) (n : Nat) (v xt yt zt : List Char) (e : MdErr)
    (hkey : lineKey line = "DimSize".data)
    (hval : (splitPred (fun c => c = '=') line).get? 1 = some v)
    (htoks : splitWsChars (trimChars v) = [xt, yt, zt])
    (hx : parseDim xt n = .error e) :
    lineStep line n none = .error e := by
  simp only [lineStep]
  rw [if_neg (by rw [hkey]; decide), if_neg (by simp [hkey]), if_neg (by simp)]
  simp only [hval, htoks, List.isEmpty_nil, if_true, hx]

theorem lineStep_err2 (line : List Char) (n : Nat) (v xt yt zt : List Char) (x : Nat)
    (e : MdErr)
    (hkey : lineKey line = "DimSize".data)
    (hval : (splitPred (fun c => c = '=') line).get? 1 = some v)
    (htoks : splitWsChars (trimChars v) = [xt, yt, zt])
    (hx : parseDim xt n = .ok x) (hy : parseDim yt n = .error e) :
    lineStep line n none = .error e := by
  simp only [lineStep]
  rw [if_neg (by rw [hkey]; decide), if_neg (by simp [hkey]), if_neg (by simp)]
  simp only [hval, htoks, List.isEmpty_nil, if_true, hx, hy]

theorem lineStep_err3 (line : List Char) (n : Nat) (v xt yt zt : List Char) (x y : Nat)
    (e : MdErr)
    (hkey : lineKey line = "DimSize".data)
    (hval : (splitPred (fun c => c = '=') line).get? 1 = some v)
    (htoks : splitWsChars (trimChars v) = [xt, yt, zt])
    (hx : parseDim xt n = .ok x) (hy : parseDim yt n = .ok y)
    (hz : parseDim zt n = .error e) :
    lineStep line n none = .error e := by
  simp only [lineStep]
  rw [if_neg (by rw [hkey]; decide), if_neg (by simp [hkey]), if_neg (by simp)]
  simp only [hval, htoks, List.isEmpty_nil, if_true, hx, hy, hz]

theorem processLines_skip (ls : List (List Char)) (rest : List (List Char)) :
    ∀ (n : Nat) (res : Option VolumeMd), (∀ l ∈ ls, lineKey l ≠ "DimSize".data) →
      processLines (ls ++ rest) n res = processLines rest (n + ls.length) res := by
  induction ls with
  | nil =>
    intro n res _
    simp
  | cons l ls ih =>
    intro n res h
    rw [List.cons_append, processLines, lineStep_skip l n res (h l (by simp))]
    show processLines (ls ++ rest) (n + 1) res = _
    rw [ih (n + 1) res (fun m hm => h m (by simp [hm]))]
    congr 1
    simp
    omega

theorem processLines_found (ls : List (List Char)) (n : Nat) (r : VolumeMd)
    (h : ∀ l ∈ ls, lineKey l ≠ "DimSize".data) :
    processLines ls n (some r) = .ok r := by
  have he := processLines_skip ls [] n (some r) h
  rw [List.append_nil] at he
  rw [he]
  rfl

theorem splitPred_no_sep (p : Char → Bool) (cs : List Char) (h : ∀ c ∈ cs, p c = false) :
    splitPred p cs = [cs] := by
  induction cs with
  | nil => rfl
  | cons c cs ih =>
    simp only [splitPred]
    rw [h c (by simp), ih (fun d hd => h d (by simp [hd]))]
    rfl

theorem collect_map_some {α β : Type} (f : α → Option β) (g : α → β) (l : List α)
    (h : ∀ x ∈ l, f x = some (g x)) : collect (l.map f) = some (l.map g) := by
  induction l with
  | nil => rfl
  | cons x xs ih =>
    simp only [List.map_cons]
    rw [h x (by simp), collect, ih (fun y hy => h y (by simp [hy]))]
    rfl

/-- Decoding an even-length byte list pairwise never panics and produces the
voxel results of consecutive little-endian pairs. -/
theorem decode_chunks :
    ∀ (m : Nat) (bytes : List Nat), bytes.length = 2 * m →
      collect ((chunks2 bytes).map Voxel.from_slice)
        = some ((List.range m).map fun i =>
            Voxel.from_array (bytes.getD (2 * i) 0) (bytes.getD (2 * i + 1) 0)) := by
  intro m
  induction m with
  | zero =>
    intro bytes h
    rw [List.length_eq_zero.mp h]
    rfl
  | succ m ih =>
    intro bytes h
    match bytes with
    | [] =>
      simp only [List.length_nil] at h
      omega
    | [b] =>
      simp only [List.length_cons, List.length_nil] at h
      omega
    | b0 :: b1 :: rest =>
      have hr : rest.length = 2 * m := by
        simp only [List.length_cons] at h
        omega
      simp only [chunks2, List.map_cons, Voxel.from_slice, collect]
      rw [ih rest hr, List.range_succ_eq_map, List.map_cons, List.map_map]
      have harg : ∀ i : Nat,
          Voxel.from_array ((b0 :: b1 :: rest).getD (2 * (i + 1)) 0)
              ((b0 :: b1 :: rest).getD (2 * (i + 1) + 1) 0)
            = Voxel.from_array (rest.getD (2 * i) 0) (rest.getD (2 * i + 1) 0) := by
        intro i
        have h2 : 2 * (i + 1) = 2 * i + 2 := by omega
        rw [h2]
        rfl
      have hmap : (List.range m).map
            ((fun i => Voxel.from_array ((b0 :: b1 :: rest).getD (2 * i) 0)
                ((b0 :: b1 :: rest).getD (2 * i + 1) 0)) ∘ Nat.succ)
          = (List.range m).map
              (fun i => Voxel.from_array (rest.getD (2 * i) 0) (rest.getD (2 * i + 1) 0)) := by
        apply List.map_congr_left
        intro i _
        exact harg i
      rw [hmap]
      rfl

/-- Enumeration of a mapped range collapses to a single mapped range. -/
theorem enum_map_map {β γ : Type} (f : Nat → β) (g : Nat × β → γ) (m : Nat) :
    ((List.range m).map f).enum.map g = (List.range m).map fun i => g (i, f i) := by
  apply List.ext_getElem?
  intro n
  by_cases h : n < m
  · simp [List.getElem?_enum, List.getElem?_range h]
  · have h1 : m ≤ n := Nat.le_of_not_lt h
    have h2 : (List.range m)[n]? = none := by
      apply List.getElem?_eq_none
      simpa using h1
    simp [List.getElem?_enum, h2]

/-- Flattening the reversed-Z iteration of uniform `X`-element rows into one
row-major sequence. -/
theorem flatten_rev_range {α : Type} (X : Nat) (g : Nat → Nat → α) :
    ∀ Z : Nat,
      (((List.range Z).reverse.map fun z => (List.range X).map (g z)).flatten)
        = (List.range (Z * X)).map fun i => g (Z - 1 - i / X) (i % X) := by
  intro Z
  induction Z with
  | zero => simp
  | succ Z ih =>
    by_cases hX : X = 0
    · subst hX
      simp
    have hX0 : 0 < X := Nat.pos_of_ne_zero hX
    rw [List.range_succ, List.reverse_append, List.reverse_cons, List.reverse_nil,
      List.nil_append, List.singleton_append, List.map_cons, List.flatten_cons, ih]
    have hmul : (Z + 1) * X = X + Z * X := by ring
    rw [hmul, List.range_add, List.map_append, List.map_map]
    congr 1
    · apply List.map_congr_left
      intro i hi
      have hiX : i < X := List.mem_range.mp hi
      simp [Nat.div_eq_of_lt hiX, Nat.mod_eq_of_lt hiX]
    · apply List.map_congr_left
      intro j _
      show g (Z - 1 - j / X) (j % X) = g (Z + 1 - 1 - (X + j) / X) ((X + j) % X)
      have hdiv : (X + j) / X = j / X + 1 := by
        rw [Nat.add_comm X j]
        exact Nat.add_div_right j hX0
      have hmod : (X + j) % X = j % X := Nat.add_mod_left X j
      rw [hdiv, hmod]
      congr 1
      omega

theorem sliceRange_some {data : List Nat} {i j : Nat} (h1 : i ≤ j) (h2 : j ≤ data.length) :
    sliceRange data i j = some ((data.drop i).take (j - i)) := by
  simp [sliceRange, h1, h2]

theorem slice_length {data : List Nat} {i j : Nat} (h2 : j ≤ data.length) :
    ((data.drop i).take (j - i)).length = j - i := by
  simp [List.length_take, List.length_drop]
  omega

theorem slice_getD {data : List Nat} {i j k : Nat} (hk : k < j - i) :
    ((data.drop i).take (j - i)).getD k 0 = data.getD (i + k) 0 := by
  simp only [List.getD, List.get?_eq_getElem?, List.getElem?_take, hk, if_pos,
    List.getElem?_drop]

theorem take_drop_length {data : List Nat} {i S : Nat} (h : i + S ≤ data.length) :
    ((data.drop i).take S).length = S := by
  simp only [List.length_take, List.length_drop]
  omega

theorem take_drop_getD {data : List Nat} {i S t : Nat} (ht : t < S) :
    ((data.drop i).take S).getD t 0 = data.getD (i + t) 0 := by
  simp only [List.getD, List.get?_eq_getElem?, List.getElem?_take, ht, if_pos,
    List.getElem?_drop]

theorem from_slice_pair {s : List Nat} (h : s.length = 2) :
    Voxel.from_slice s = some (Voxel.from_array (s.getD 0 0) (s.getD 1 0)) := by
  match s with
  | [] => simp at h
  | [a] => simp at h
  | [a, b] => rfl
  | a :: b :: c :: t => simp at h

/-- The Z-frame byte slice of an in-range index over a size-correct buffer. -/
theorem zframe_bytes_some (md : VolumeMd) (data : List Nat) (z : Nat)
    (h : data.length = md.xdim * md.ydim * md.zdim * Voxel.size) (hz : z < md.zdim) :
    Volume.zframe_bytes ⟨md, data⟩ z
      = some ((data.drop ((md.xdim * md.ydim * 2) * z)).take (md.xdim * md.ydim * 2)) := by
  have hsz : Voxel.size = 2 := rfl
  have hlen : data.length = md.xdim * md.ydim * md.zdim * 2 := by rw [h, hsz]
  have hS : (md.xdim * md.ydim * 2) * z + (md.xdim * md.ydim * 2) ≤ data.length := by
    rw [hlen]
    calc (md.xdim * md.ydim * 2) * z + (md.xdim * md.ydim * 2)
        = (md.xdim * md.ydim * 2) * (z + 1) := by ring
      _ ≤ (md.xdim * md.ydim * 2) * md.zdim := Nat.mul_le_mul_left _ hz
      _ = md.xdim * md.ydim * md.zdim * 2 := by ring
  show sliceRange data ((md.xdim * md.ydim) * Voxel.size * z)
      ((md.xdim * md.ydim) * Voxel.size * z + (md.xdim * md.ydim) * Voxel.size) = _
  rw [hsz, sliceRange_some (Nat.le_add_right _ _) hS, Nat.add_sub_cancel_left]

/-- The byte slice of row `r` of Z-frame `z`, for in-range indices. -/
theorem zframe_row_bytes_some (md : VolumeMd) (data : List Nat) (z r : Nat)
    (h : data.length = md.xdim * md.ydim * md.zdim * Voxel.size)
    (hz : z < md.zdim) (hr : r < md.ydim) :
    Volume.zframe_row_bytes ⟨md, data⟩ z r
      = some ((((data.drop ((md.xdim * md.ydim * 2) * z)).take
          (md.xdim * md.ydim * 2)).drop ((md.xdim * 2) * r)).take (md.xdim * 2)) := by
  have hsz : Voxel.size = 2 := rfl
  have hlen : data.length = md.xdim * md.ydim * md.zdim * 2 := by rw [h, hsz]
  have hS : (md.xdim * md.ydim * 2) * z + (md.xdim * md.ydim * 2) ≤ data.length := by
    rw [hlen]
    calc (md.xdim * md.ydim * 2) * z + (md.xdim * md.ydim * 2)
        = (md.xdim * md.ydim * 2) * (z + 1) := by ring
      _ ≤ (md.xdim * md.ydim * 2) * md.zdim := Nat.mul_le_mul_left _ hz
      _ = md.xdim * md.ydim * md.zdim * 2 := by ring
  have hslen : ((data.drop ((md.xdim * md.ydim * 2) * z)).take
      (md.xdim * md.ydim * 2)).length = md.xdim * md.ydim * 2 := take_drop_length hS
  have hrow : (md.xdim * 2) * r + (md.xdim * 2) ≤ md.xdim * md.ydim * 2 := by
    calc (md.xdim * 2) * r + (md.xdim * 2) = (md.xdim * 2) * (r + 1) := by ring
      _ ≤ (md.xdim * 2) * md.ydim := Nat.mul_le_mul_left _ hr
      _ = md.xdim * md.ydim * 2 := by ring
  rw [Volume.zframe_row_bytes]
  rw [zframe_bytes_some md data z h hz, Option.some_bind]
  show sliceRange _ (md.xdim * Voxel.size * r) (md.xdim * Voxel.size * r + md.xdim * Voxel.size)
      = _
  rw [hsz, sliceRange_some (Nat.le_add_right _ _) (by rw [hslen]; exact hrow),
    Nat.add_sub_cancel_left]

/-- Closed form of `Volume::zframe_row_iter`: row `r` of Z-frame `z` decodes
to the voxels at offsets `2 * (z * X * Y + r * X + j)` for `j < X`. -/
theorem zframe_row_iter_closed (md : VolumeMd) (data : List Nat) (z r : Nat)
    (h : data.length = md.xdim * md.ydim * md.zdim * Voxel.size)
    (hz : z < md.zdim) (hr : r < md.ydim) :
    Volume.zframe_row_iter ⟨md, data⟩ z r
      = some ((List.range md.xdim).map fun j =>
          Voxel.from_array (data.getD (2 * (z * (md.xdim * md.ydim) + r * md.xdim + j)) 0)
            (data.getD (2 * (z * (md.xdim * md.ydim) + r * md.xdim + j) + 1) 0)) := by
  rw [Volume.zframe_row_iter, zframe_row_bytes_some md data z r h hz hr, Option.some_bind]
  rw [decode_chunks md.xdim _ (by
    rw [Nat.mul_comm 2 md.xdim]
    apply take_drop_length
    have hslen : ((data.drop ((md.xdim * md.ydim * 2) * z)).take
        (md.xdim * md.ydim * 2)).length = md.xdim * md.ydim * 2 := by
      apply take_drop_length
      rw [h]
      show _ ≤ md.xdim * md.ydim * md.zdim * 2
      calc (md.xdim * md.ydim * 2) * z + (md.xdim * md.ydim * 2)
          = (md.xdim * md.ydim * 2) * (z + 1) := by ring
        _ ≤ (md.xdim * md.ydim * 2) * md.zdim := Nat.mul_le_mul_left _ hz
        _ = md.xdim * md.ydim * md.zdim * 2 := by ring
    rw [hslen]
    calc (md.xdim * 2) * r + md.xdim * 2 = (md.xdim * 2) * (r + 1) := by ring
      _ ≤ (md.xdim * 2) * md.ydim := Nat.mul_le_mul_left _ hr
      _ = md.xdim * md.ydim * 2 := by ring)]
  congr 1
  apply List.map_congr_left
  intro j hj
  have hjX : j < md.xdim := List.mem_range.mp hj
  have hrow : ∀ t, t < md.xdim * 2 → (md.xdim * 2) * r + t < md.xdim * md.ydim * 2 := by
    intro t ht
    calc (md.xdim * 2) * r + t < (md.xdim * 2) * r + md.xdim * 2 := Nat.add_lt_add_left ht _
      _ = (md.xdim * 2) * (r + 1) := by ring
      _ ≤ (md.xdim * 2) * md.ydim := Nat.mul_le_mul_left _ hr
      _ = md.xdim * md.ydim * 2 := by ring
  have hget : ∀ t, t < md.xdim * 2 →
      ((((data.drop ((md.xdim * md.ydim * 2) * z)).take
          (md.xdim * md.ydim * 2)).drop ((md.xdim * 2) * r)).take (md.xdim * 2)).getD t 0
        = data.getD ((md.xdim * md.ydim * 2) * z + ((md.xdim * 2) * r + t)) 0 := by
    intro t ht
    rw [take_drop_getD ht, take_drop_getD (hrow t ht)]
  rw [hget (2 * j) (by omega), hget (2 * j + 1) (by omega)]
  have e1 : (md.xdim * md.ydim * 2) * z + ((md.xdim * 2) * r + 2 * j)
      = 2 * (z * (md.xdim * md.ydim) + r * md.xdim + j) := by ring
  have e2 : (md.xdim * md.ydim * 2) * z + ((md.xdim * 2) * r + (2 * j + 1))
      = 2 * (z * (md.xdim * md.ydim) + r * md.xdim + j) + 1 := by ring
  rw [e1, e2]

/-- Closed form of `Volume::zframe_col_iter`: column `c` of Z-frame `z`
decodes to the voxels at offsets `2 * (z * X * Y + r * X + c)` for `r < Y`. -/
theorem zframe_col_iter_closed (md : VolumeMd) (data : List Nat) (z c : Nat)
    (h : data.length = md.xdim * md.ydim * md.zdim * Voxel.size)
    (hz : z < md.zdim) (hc : c < md.xdim) :
    Volume.zframe_col_iter ⟨md, data⟩ z c
      = some ((List.range md.ydim).map fun r =>
          Voxel.from_array (data.getD (2 * (z * (md.xdim * md.ydim) + r * md.xdim + c)) 0)
            (data.getD (2 * (z * (md.xdim * md.ydim) + r * md.xdim + c) + 1) 0)) := by
  rw [Volume.zframe_col_iter]
  apply collect_map_some
  intro r hrmem
  have hr : r < md.ydim := List.mem_range.mp hrmem
  show (Volume.zframe_voxel_bytes ⟨md, data⟩ z c r).bind Voxel.from_slice = _
  have hrowlen : ((((data.drop ((md.xdim * md.ydim * 2) * z)).take
      (md.xdim * md.ydim * 2)).drop ((md.xdim * 2) * r)).take (md.xdim * 2)).length
      = md.xdim * 2 := by
    apply take_drop_length
    have hslen : ((data.drop ((md.xdim * md.ydim * 2) * z)).take
        (md.xdim * md.ydim * 2)).length = md.xdim * md.ydim * 2 := by
      apply take_drop_length
      rw [h]
      show _ ≤ md.xdim * md.ydim * md.zdim * 2
      calc (md.xdim * md.ydim * 2) * z + (md.xdim * md.ydim * 2)
          = (md.xdim * md.ydim * 2) * (z + 1) := by ring
        _ ≤ (md.xdim * md.ydim * 2) * md.zdim := Nat.mul_le_mul_left _ hz
        _ = md.xdim * md.ydim * md.zdim * 2 := by ring
    rw [hslen]
    calc (md.xdim * 2) * r + md.xdim * 2 = (md.xdim * 2) * (r + 1) := by ring
      _ ≤ (md.xdim * 2) * md.ydim := Nat.mul_le_mul_left _ hr
      _ = md.xdim * md.ydim * 2 := by ring
  have hcb : c * 2 + 2 ≤ md.xdim * 2 := by omega
  rw [Volume.zframe_voxel_bytes, zframe_row_bytes_some md data z r h hz hr, Option.some_bind]
  show (sliceRange _ (c * Voxel.size) (c * Voxel.size + Voxel.size)).bind Voxel.from_slice = _
  have hsz : Voxel.size = 2 := rfl
  rw [hsz, sliceRange_some (Nat.le_add_right _ _) (by rw [hrowlen]; omega),
    Nat.add_sub_cancel_left, Option.some_bind]
  rw [from_slice_pair (take_drop_length (by rw [hrowlen]; omega))]
  have hrow : ∀ t, t < md.xdim * 2 → (md.xdim * 2) * r + t < md.xdim * md.ydim * 2 := by
    intro t ht
    calc (md.xdim * 2) * r + t < (md.xdim * 2) * r + md.xdim * 2 := Nat.add_lt_add_left ht _
      _ = (md.xdim * 2) * (r + 1) := by ring
      _ ≤ (md.xdim * 2) * md.ydim := Nat.mul_le_mul_left _ hr
      _ = md.xdim * md.ydim * 2 := by ring
  have hget : ∀ t, t < 2 →
      ((((((data.drop ((md.xdim * md.ydim * 2) * z)).take
          (md.xdim * md.ydim * 2)).drop ((md.xdim * 2) * r)).take (md.xdim * 2)).drop
            (c * 2)).take 2).getD t 0
        = data.getD ((md.xdim * md.ydim * 2) * z + ((md.xdim * 2) * r + (c * 2 + t))) 0 := by
    intro t ht
    rw [take_drop_getD ht, take_drop_getD (show c * 2 + t < md.xdim * 2 by omega),
      take_drop_getD (hrow (c * 2 + t) (by omega))]
  rw [hget 0 (by omega), hget 1 (by omega)]
  have e1 : (md.xdim * md.ydim * 2) * z + ((md.xdim * 2) * r + (c * 2 + 0))
      = 2 * (z * (md.xdim * md.ydim) + r * md.xdim + c) := by ring
  have e2 : (md.xdim * md.ydim * 2) * z + ((md.xdim * 2) * r + (c * 2 + 1))
      = 2 * (z * (md.xdim * md.ydim) + r * md.xdim + c) + 1 := by ring
  rw [e1, e2]

/-- Closed form of `Volume::yframe`: `zdim * xdim` triples; the `i`-th comes
from the voxel at 3D coordinates
`(x = i % xdim, y = r, z = zdim - 1 - i / xdim)` (reverse Z order), carrying
2D coordinates `(i % xdim, i / xdim)`. -/
theorem yframe_closed (md : VolumeMd) (data : List Nat) (r : Nat)
    (h : data.length = md.xdim * md.ydim * md.zdim * Voxel.size) (hr : r < md.ydim) :
    Volume.yframe ⟨md, data⟩ r
      = some ((List.range (md.zdim * md.xdim)).map fun i =>
          (Voxel.from_array
              (data.getD (2 * ((md.zdim - 1 - i / md.xdim) * (md.xdim * md.ydim)
                  + r * md.xdim + i % md.xdim)) 0)
              (data.getD (2 * ((md.zdim - 1 - i / md.xdim) * (md.xdim * md.ydim)
                  + r * md.xdim + i % md.xdim) + 1) 0),
            i % md.xdim, i / md.xdim)) := by
  have hall : ∀ z ∈ (List.range md.zdim).reverse,
      Volume.zframe_row_iter ⟨md, data⟩ z r
        = some ((List.range md.xdim).map fun j =>
            Voxel.from_array (data.getD (2 * (z * (md.xdim * md.ydim) + r * md.xdim + j)) 0)
              (data.getD (2 * (z * (md.xdim * md.ydim) + r * md.xdim + j) + 1) 0)) := by
    intro z hzmem
    have hz : z < md.zdim := List.mem_range.mp (List.mem_reverse.mp hzmem)
    exact zframe_row_iter_closed md data z r h hz hr
  simp only [Volume.yframe]
  rw [collect_map_some _ _ _ hall, Option.map_some']
  rw [flatten_rev_range md.xdim (fun z j =>
      Voxel.from_array (data.getD (2 * (z * (md.xdim * md.ydim) + r * md.xdim + j)) 0)
        (data.getD (2 * (z * (md.xdim * md.ydim) + r * md.xdim + j) + 1) 0)) md.zdim]
  rw [enum_map_map]

/-- Closed form of `Volume::xframe`: `zdim * ydim` triples; the `i`-th comes
from the voxel at 3D coordinates
`(x = c, y = i % ydim, z = zdim - 1 - i / ydim)` (reverse Z order), carrying
2D coordinates `(i % ydim, i / ydim)`. -/
theorem xframe_closed (md : VolumeMd) (data : List Nat) (c : Nat)
    (h : data.length = md.xdim * md.ydim * md.zdim * Voxel.size) (hc : c < md.xdim) :
    Volume.xframe ⟨md, data⟩ c
      = some ((List.range (md.zdim * md.ydim)).map fun i =>
          (Voxel.from_array
              (data.getD (2 * ((md.zdim - 1 - i / md.ydim) * (md.xdim * md.ydim)
                  + (i % md.ydim) * md.xdim + c)) 0)
              (data.getD (2 * ((md.zdim - 1 - i / md.ydim) * (md.xdim * md.ydim)
                  + (i % md.ydim) * md.xdim + c) + 1) 0),
            i % md.ydim, i / md.ydim)) := by
  have hall : ∀ z ∈ (List.range md.zdim).reverse,
      Volume.zframe_col_iter ⟨md, data⟩ z c
        = some ((List.range md.ydim).map fun j =>
            Voxel.from_array (data.getD (2 * (z * (md.xdim * md.ydim) + j * md.xdim + c)) 0)
              (data.getD (2 * (z * (md.xdim * md.ydim) + j * md.xdim + c) + 1) 0)) := by
    intro z hzmem
    have hz : z < md.zdim := List.mem_range.mp (List.mem_reverse.mp hzmem)
    exact zframe_col_iter_closed md data z c h hz hc
  simp only [Volume.xframe]
  rw [collect_map_some _ _ _ hall, Option.map_some']
  rw [flatten_rev_range md.ydim (fun z j =>
      Voxel.from_array (data.getD (2 * (z * (md.xdim * md.ydim) + j * md.xdim + c)) 0)
        (data.getD (2 * (z * (md.xdim * md.ydim) + j * md.xdim + c) + 1) 0)) md.zdim]
  rw [enum_map_map]

/-- Closed form of `Volume::zframe` for an in-range index over a size-correct
buffer: `xdim * ydim` triples, the `i`-th decoded from the little-endian byte
pair at offset `2 * (k * xdim * ydim + i)`, with coordinates
`(i % xdim, i / xdim)`. -/
theorem zframe_closed (md : VolumeMd) (data : List Nat) (k : Nat)
    (h : data.length = md.xdim * md.ydim * md.zdim * Voxel.size) (hk : k < md.zdim) :
    Volume.zframe ⟨md, data⟩ k
      = some ((List.range (md.xdim * md.ydim)).map fun i =>
          (Voxel.from_array (data.getD (2 * (k * (md.xdim * md.ydim) + i)) 0)
              (data.getD (2 * (k * (md.xdim * md.ydim) + i) + 1) 0),
            i % md.xdim, i / md.xdim)) := by
  have hsz : Voxel.size = 2 := rfl
  have hlen : data.length = md.xdim * md.ydim * md.zdim * 2 := by rw [h, hsz]
  have hS : (md.xdim * md.ydim * 2) * k + (md.xdim * md.ydim * 2) ≤ data.length := by
    rw [hlen]
    calc (md.xdim * md.ydim * 2) * k + (md.xdim * md.ydim * 2)
        = (md.xdim * md.ydim * 2) * (k + 1) := by ring
      _ ≤ (md.xdim * md.ydim * 2) * md.zdim := Nat.mul_le_mul_left _ hk
      _ = md.xdim * md.ydim * md.zdim * 2 := by ring
  have hbytes : Volume.zframe_bytes ⟨md, data⟩ k
      = some ((data.drop ((md.xdim * md.ydim * 2) * k)).take (md.xdim * md.ydim * 2)) := by
    show sliceRange data ((md.xdim * md.ydim) * Voxel.size * k)
        ((md.xdim * md.ydim) * Voxel.size * k + (md.xdim * md.ydim) * Voxel.size) = _
    rw [hsz, sliceRange_some (Nat.le_add_right _ _) hS, Nat.add_sub_cancel_left]
  have hiter : Volume.zframe_iter ⟨md, data⟩ k
      = some ((List.range (md.xdim * md.ydim)).map fun i =>
          Voxel.from_array (data.getD (2 * (k * (md.xdim * md.ydim) + i)) 0)
            (data.getD (2 * (k * (md.xdim * md.ydim) + i) + 1) 0)) := by
    rw [Volume.zframe_iter, hbytes, Option.some_bind]
    rw [decode_chunks (md.xdim * md.ydim) _ (by
      have := @slice_length data ((md.xdim * md.ydim * 2) * k)
        ((md.xdim * md.ydim * 2) * k + (md.xdim * md.ydim * 2)) hS
      rw [Nat.add_sub_cancel_left] at this
      rw [this]
      ring)]
    congr 1
    apply List.map_congr_left
    intro i hi
    have hiXY : i < md.xdim * md.ydim := List.mem_range.mp hi
    have hget : ∀ t, t < md.xdim * md.ydim * 2 →
        ((data.drop ((md.xdim * md.ydim * 2) * k)).take (md.xdim * md.ydim * 2)).getD t 0
          = data.getD ((md.xdim * md.ydim * 2) * k + t) 0 := by
      intro t ht
      have := @slice_getD data ((md.xdim * md.ydim * 2) * k)
        ((md.xdim * md.ydim * 2) * k + (md.xdim * md.ydim * 2)) t
        (by rw [Nat.add_sub_cancel_left]; exact ht)
      rwa [Nat.add_sub_cancel_left] at this
    rw [hget (2 * i) (by omega), hget (2 * i + 1) (by omega)]
    have e1 : (md.xdim * md.ydim * 2) * k + 2 * i = 2 * (k * (md.xdim * md.ydim) + i) := by
      ring
    have e2 : (md.xdim * md.ydim * 2) * k + (2 * i + 1)
        = 2 * (k * (md.xdim * md.ydim) + i) + 1 := by ring
    rw [e1, e2]
  rw [Volume.zframe, hiter, Option.map_some']
  congr 1
  exact enum_map_map _ _ _

/-- Inversion of a successful `Volume::from_slice`. -/
theorem from_slice_ok {md : VolumeMd} {data : List Nat} {vol : Volume}
    (h : Volume.from_slice md data = .ok vol) :
    vol = ⟨md, data⟩ ∧ data.length = md.xdim * md.ydim * md.zdim * Voxel.size := by
  unfold Volume.from_slice at h
  by_cases hl : data.length = md.xdim * md.ydim * md.zdim * Voxel.size
  · have hmod : data.length % Voxel.size = 0 := by
      rw [hl]
      exact Nat.mul_mod_left _ _
    simp [hl, hmod] at h
    exact ⟨h.symm, hl⟩
  · simp [hl] at h

/-! ## Claim theorems -/

/-- C1: for every validly constructed Volume with dimensions `(X, Y, Z)` and
every `k < Z`, `zframe k` yields exactly `X * Y` triples; the `i`-th triple
carries coordinates `(i % X, i / X)` (covering `[0,X) × [0,Y)` row-major) and
its voxel is decoded from the two little-endian bytes at buffer offset
`2 * (k * X * Y + i)`. -/
theorem medviz_C1 (md : VolumeMd) (data : List Nat) (vol : Volume) (k : Nat)
    (hok : Volume.from_slice md data = .ok vol) (hk : k < md.zdim) :
    vol.zframe k
        = some ((List.range (md.xdim * md.ydim)).map fun i =>
            (Voxel.from_array (data.getD (2 * (k * (md.xdim * md.ydim) + i)) 0)
                (data.getD (2 * (k * (md.xdim * md.ydim) + i) + 1) 0),
              i % md.xdim, i / md.xdim))
      ∧ ∀ l, vol.zframe k = some l → l.length = md.xdim * md.ydim := by
  obtain ⟨rfl, hlen⟩ := from_slice_ok hok
  refine ⟨zframe_closed md data k hlen hk, ?_⟩
  intro l hl
  rw [zframe_closed md data k hlen hk] at hl
  injection hl with hl
  rw [← hl]
  simp

/-- Witness for C1: the 2×2×2 demonstration volume over the 16-byte buffer
holding little-endian values 0..7. -/
theorem medviz_C1_witness :
    Volume.zframe ⟨⟨2, 2, 2⟩, [0, 0, 1, 0, 2, 0, 3, 0, 4, 0, 5, 0, 6, 0, 7, 0]⟩ 0
        = some [(.ok 0, 0, 0), (.ok 1, 1, 0), (.ok 2, 0, 1), (.ok 3, 1, 1)]
      ∧ Volume.zframe ⟨⟨2, 2, 2⟩, [0, 0, 1, 0, 2, 0, 3, 0, 4, 0, 5, 0, 6, 0, 7, 0]⟩ 1
        = some [(.ok 4, 0, 0), (.ok 5, 1, 0), (.ok 6, 0, 1), (.ok 7, 1, 1)] := by
  constructor
  · have h := medviz_C1 ⟨2, 2, 2⟩ [0, 0, 1, 0, 2, 0, 3, 0, 4, 0, 5, 0, 6, 0, 7, 0]
      ⟨⟨2, 2, 2⟩, [0, 0, 1, 0, 2, 0, 3, 0, 4, 0, 5, 0, 6, 0, 7, 0]⟩ 0 (by decide) (by decide)
    rw [h.1]
    decide
  · have h := medviz_C1 ⟨2, 2, 2⟩ [0, 0, 1, 0, 2, 0, 3, 0, 4, 0, 5, 0, 6, 0, 7, 0]
      ⟨⟨2, 2, 2⟩, [0, 0, 1, 0, 2, 0, 3, 0, 4, 0, 5, 0, 6, 0, 7, 0]⟩ 1 (by decide) (by decide)
    rw [h.1]
    decide

/-- C2: for a validly constructed Volume with dimensions `(X, Y, Z)`:
`yframe k` (for `k < Y`) yields exactly `X * Z` triples, the `i`-th carrying
coordinates `(i % X, i / X)` and the voxel at 3D coordinates
`(x = i % X, y = k, z = Z - 1 - i / X)` — Z-frames visited in reverse order;
`xframe k` (for `k < X`) yields exactly `Y * Z` triples, the `i`-th carrying
coordinates `(i % Y, i / Y)` and the voxel at `(x = k, y = i % Y,
z = Z - 1 - i / Y)`.  The voxel at `(x, y, z)` sits at buffer offset
`2 * (z * X * Y + y * X + x)`. -/
theorem medviz_C2 (md : VolumeMd) (data : List Nat) (vol : Volume)
    (hok : Volume.from_slice md data = .ok vol) :
    (∀ k, k < md.ydim →
        vol.yframe k
          = some ((List.range (md.zdim * md.xdim)).map fun i =>
              (Voxel.from_array
                  (data.getD (2 * ((md.zdim - 1 - i / md.xdim) * (md.xdim * md.ydim)
                      + k * md.xdim + i % md.xdim)) 0)
                  (data.getD (2 * ((md.zdim - 1 - i / md.xdim) * (md.xdim * md.ydim)
                      + k * md.xdim + i % md.xdim) + 1) 0),
                i % md.xdim, i / md.xdim))
          ∧ ∀ l, vol.yframe k = some l → l.length = md.xdim * md.zdim)
      ∧ ∀ k, k < md.xdim →
        vol.xframe k
          = some ((List.range (md.zdim * md.ydim)).map fun i =>
              (Voxel.from_array
                  (data.getD (2 * ((md.zdim - 1 - i / md.ydim) * (md.xdim * md.ydim)
                      + (i % md.ydim) * md.xdim + k)) 0)
                  (data.getD (2 * ((md.zdim - 1 - i / md.ydim) * (md.xdim * md.ydim)
                      + (i % md.ydim) * md.xdim + k) + 1) 0),
                i % md.ydim, i / md.ydim))
          ∧ ∀ l, vol.xframe k = some l → l.length = md.ydim * md.zdim := by
  obtain ⟨rfl, hlen⟩ := from_slice_ok hok
  constructor
  · intro k hk
    refine ⟨yframe_closed md data k hlen hk, ?_⟩
    intro l hl
    rw [yframe_closed md data k hlen hk] at hl
    injection hl with hl
    rw [← hl]
    simp [Nat.mul_comm]
  · intro k hk
    refine ⟨xframe_closed md data k hlen hk, ?_⟩
    intro l hl
    rw [xframe_closed md data k hlen hk] at hl
    injection hl with hl
    rw [← hl]
    simp [Nat.mul_comm]

/-- Witness for C2: on the 2×2×2 demonstration volume holding values 0..7,
`yframe 0` visits Z-frames in reverse order (values 4, 5 then 0, 1) and
`xframe 0` likewise (values 4, 6 then 0, 2). -/
theorem medviz_C2_witness :
    Volume.yframe ⟨⟨2, 2, 2⟩, [0, 0, 1, 0, 2, 0, 3, 0, 4, 0, 5, 0, 6, 0, 7, 0]⟩ 0
        = some [(.ok 4, 0, 0), (.ok 5, 1, 0), (.ok 0, 0, 1), (.ok 1, 1, 1)]
      ∧ Volume.xframe ⟨⟨2, 2, 2⟩, [0, 0, 1, 0, 2, 0, 3, 0, 4, 0, 5, 0, 6, 0, 7, 0]⟩ 0
        = some [(.ok 4, 0, 0), (.ok 6, 1, 0), (.ok 0, 0, 1), (.ok 2, 1, 1)] := by
  have h := medviz_C2 ⟨2, 2, 2⟩ [0, 0, 1, 0, 2, 0, 3, 0, 4, 0, 5, 0, 6, 0, 7, 0]
    ⟨⟨2, 2, 2⟩, [0, 0, 1, 0, 2, 0, 3, 0, 4, 0, 5, 0, 6, 0, 7, 0]⟩ (by decide)
  constructor
  · rw [(h.1 0 (by decide)).1]
    decide
  · rw [(h.2 0 (by decide)).1]
    decide

/-- C3: `Volume::from_slice` succeeds exactly when the buffer length equals
`xdim * ydim * zdim * 2`, fails with `DataSizeMismatch{actual, expected}`
otherwise, and never returns `DataSizeUneven`. -/
theorem medviz_C3 (md : VolumeMd) (data : List Nat) :
    (data.length = md.xdim * md.ydim * md.zdim * Voxel.size →
        Volume.from_slice md data = .ok ⟨md, data⟩)
      ∧ (data.length ≠ md.xdim * md.ydim * md.zdim * Voxel.size →
        Volume.from_slice md data
          = .error (.dataSizeMismatch data.length (md.xdim * md.ydim * md.zdim * Voxel.size)))
      ∧ ∀ s, Volume.from_slice md data ≠ .error (.dataSizeUneven s) := by
  refine ⟨?_, ?_, ?_⟩
  · intro hl
    have hmod : data.length % Voxel.size = 0 := by
      rw [hl]
      exact Nat.mul_mod_left _ _
    simp [Volume.from_slice, hl, hmod]
  · intro hl
    simp [Volume.from_slice, hl]
  · intro s
    by_cases hl : data.length = md.xdim * md.ydim * md.zdim * Voxel.size
    · have hmod : data.length % Voxel.size = 0 := by
        rw [hl]
        exact Nat.mul_mod_left _ _
      simp [Volume.from_slice, hl, hmod]
    · simp [Volume.from_slice, hl]

/-- Witness for C3: a (1,1,1) volume accepts a 2-byte buffer and rejects a
1-byte buffer with the mismatch error. -/
theorem medviz_C3_witness :
    Volume.from_slice ⟨1, 1, 1⟩ [7, 0] = .ok ⟨⟨1, 1, 1⟩, [7, 0]⟩
      ∧ Volume.from_slice ⟨1, 1, 1⟩ [7] = .error (.dataSizeMismatch 1 2) := by
  constructor
  · exact (medviz_C3 ⟨1, 1, 1⟩ [7, 0]).1 (by decide)
  · exact (medviz_C3 ⟨1, 1, 1⟩ [7]).2.1 (by decide)

/-- C4: for metadata text containing exactly one `DimSize`-keyed line, that
line being valid with three tokens parsing to `X`, `Y`, `Z`,
`VolumeMd::from_buffer` returns `Ok` with `(xdim, ydim, zdim) = (X, Y, Z)` in
that literal order, regardless of the surrounding unrelated lines; scanning
continues past the accepted line (the trailing lines are walked) rather than
stopping early. -/
theorem medviz_C4 (buffer : String) (pre post : List (List Char))
    (line v xt yt zt : List Char) (x y z : Nat)
    (hsplit : splitPred (fun c => c = '\n') buffer.data = pre ++ line :: post)
    (hpre : ∀ l ∈ pre, lineKey l ≠ "DimSize".data)
    (hpost : ∀ l ∈ post, lineKey l ≠ "DimSize".data)
    (hkey : lineKey line = "DimSize".data)
    (hval : (splitPred (fun c => c = '=') line).get? 1 = some v)
    (htoks : splitWsChars (trimChars v) = [xt, yt, zt])
    (hx : parseDim xt (pre.length + 1) = .ok x)
    (hy : parseDim yt (pre.length + 1) = .ok y)
    (hz : parseDim zt (pre.length + 1) = .ok z) :
    VolumeMd.from_buffer buffer = .ok ⟨x, y, z⟩ := by
  rw [VolumeMd.from_buffer, hsplit, processLines_skip pre (line :: post) 1 none hpre,
    Nat.add_comm 1 pre.length, processLines,
    lineStep_accept line (pre.length + 1) v xt yt zt x y z hkey hval htoks hx hy hz]
  show processLines post (pre.length + 1 + 1) (some ⟨x, y, z⟩) = _
  exact processLines_found post _ _ hpost

/-- Witness for C4: the metadata text of the repository's own unit test, with
an unrelated line before and after the `DimSize` line. -/
theorem medviz_C4_witness :
    VolumeMd.from_buffer "NDims = 3\nDimSize = 512 512 333\nElementSpacing = 0.4"
      = .ok ⟨512, 512, 333⟩ := by
  exact medviz_C4 "NDims = 3\nDimSize = 512 512 333\nElementSpacing = 0.4"
    ["NDims = 3".data] ["ElementSpacing = 0.4".data]
    "DimSize = 512 512 333".data " 512 512 333".data "512".data "512".data "333".data
    512 512 333 (by decide) (by decide) (by decide) (by decide) (by decide) (by decide)
    (by decide) (by decide) (by decide)

/-- C5 counterexample: the token `"12a"` contains an embedded non-digit
character, yet `VolumeMd::from_buffer` accepts it as 12 (checked parsing only
rejects tokens with no leading digit, or whose digit run overflows `usize`),
instead of failing with `InvalidDimSizeValue`. -/
theorem medviz_C5_counterexample :
    VolumeMd.from_buffer "DimSize = 12a 2 3" = .ok ⟨12, 2, 3⟩
      ∧ VolumeMd.from_buffer "DimSize = 12a 2 3" ≠ .error (.invalidValue 1 "12a") := by
  constructor
  · decide
  · decide

/-- C5 (amended): each `DimSize` token is parsed as its maximal leading run of
ASCII digits; a token with no leading digit, or whose digit run's value
reaches `2^64`, fails with `InvalidDimSizeValue` carrying the 1-based line
number and the original token text; tokens are checked left to right, and
trailing non-digit characters after a nonempty digit run are ignored. -/
theorem medviz_C5_amended (buffer : String) (pre post : List (List Char))
    (line v xt yt zt : List Char)
    (hsplit : splitPred (fun c => c = '\n') buffer.data = pre ++ line :: post)
    (hpre : ∀ l ∈ pre, lineKey l ≠ "DimSize".data)
    (hpost : ∀ l ∈ post, lineKey l ≠ "DimSize".data)
    (hkey : lineKey line = "DimSize".data)
    (hval : (splitPred (fun c => c = '=') line).get? 1 = some v)
    (htoks : splitWsChars (trimChars v) = [xt, yt, zt]) :
    (leadingDigits xt = [] ∨ usizeBound ≤ digitsToNat (leadingDigits xt) →
        VolumeMd.from_buffer buffer
          = .error (.invalidValue (pre.length + 1) (String.mk xt)))
      ∧ (leadingDigits xt ≠ [] → digitsToNat (leadingDigits xt) < usizeBound →
          (leadingDigits yt = [] ∨ usizeBound ≤ digitsToNat (leadingDigits yt)) →
          VolumeMd.from_buffer buffer
            = .error (.invalidValue (pre.length + 1) (String.mk yt)))
      ∧ (leadingDigits xt ≠ [] → digitsToNat (leadingDigits xt) < usizeBound →
          leadingDigits yt ≠ [] → digitsToNat (leadingDigits yt) < usizeBound →
          (leadingDigits zt = [] ∨ usizeBound ≤ digitsToNat (leadingDigits zt)) →
          VolumeMd.from_buffer buffer
            = .error (.invalidValue (pre.length + 1) (String.mk zt)))
      ∧ (leadingDigits xt ≠ [] → digitsToNat (leadingDigits xt) < usizeBound →
          leadingDigits yt ≠ [] → digitsToNat (leadingDigits yt) < usizeBound →
          leadingDigits zt ≠ [] → digitsToNat (leadingDigits zt) < usizeBound →
          VolumeMd.from_buffer buffer
            = .ok ⟨digitsToNat (leadingDigits xt), digitsToNat (leadingDigits yt),
                digitsToNat (leadingDigits zt)⟩) := by
  have hstart : VolumeMd.from_buffer buffer
      = processLines (line :: post) (pre.length + 1) none := by
    rw [VolumeMd.from_buffer, hsplit, processLines_skip pre (line :: post) 1 none hpre,
      Nat.add_comm 1 pre.length]
  refine ⟨?_, ?_, ?_, ?_⟩
  · intro hfail
    rw [hstart, processLines,
      lineStep_err1 line (pre.length + 1) v xt yt zt _ hkey hval htoks
        (parseDim_err xt (pre.length + 1) hfail)]
  · intro h1 h2 hfail
    rw [hstart, processLines,
      lineStep_err2 line (pre.length + 1) v xt yt zt _ _ hkey hval htoks
        (parseDim_ok xt (pre.length + 1) h1 h2)
        (parseDim_err yt (pre.length + 1) hfail)]
  · intro h1 h2 h3 h4 hfail
    rw [hstart, processLines,
      lineStep_err3 line (pre.length + 1) v xt yt zt _ _ _ hkey hval htoks
        (parseDim_ok xt (pre.length + 1) h1 h2)
        (parseDim_ok yt (pre.length + 1) h3 h4)
        (parseDim_err zt (pre.length + 1) hfail)]
  · intro h1 h2 h3 h4 h5 h6
    rw [hstart, processLines,
      lineStep_accept line (pre.length + 1) v xt yt zt _ _ _ hkey hval htoks
        (parseDim_ok xt (pre.length + 1) h1 h2)
        (parseDim_ok yt (pre.length + 1) h3 h4)
        (parseDim_ok zt (pre.length + 1) h5 h6)]
    show processLines post (pre.length + 1 + 1) (some _) = _
    exact processLines_found post _ _ hpost

/-- Witness for C5 (amended): `"DimSize = 12a 2x 3y"` parses to `(12, 2, 3)`
despite the trailing non-digit characters, and `"DimSize = abc 2 3"` fails
naming the first token. -/
theorem medviz_C5_amended_witness :
    VolumeMd.from_buffer "DimSize = 12a 2x 3y" = .ok ⟨12, 2, 3⟩
      ∧ VolumeMd.from_buffer "DimSize = abc 2 3" = .error (.invalidValue 1 "abc") := by
  constructor
  · exact (medviz_C5_amended "DimSize = 12a 2x 3y" [] [] "DimSize = 12a 2x 3y".data
      " 12a 2x 3y".data "12a".data "2x".data "3y".data (by decide) (by decide) (by decide)
      (by decide) (by decide) (by decide)).2.2.2
      (by decide) (by decide) (by decide) (by decide) (by decide) (by decide)
  · exact (medviz_C5_amended "DimSize = abc 2 3" [] [] "DimSize = abc 2 3".data
      " abc 2 3".data "abc".data "2".data "3".data (by decide) (by decide) (by decide)
      (by decide) (by decide) (by decide)).1 (by decide)

/-- C6 counterexample: `from_buffer` does not treat the entire remainder after
the first `=` as the value (it reads only the piece between the first and
second `=`), and a line consisting of just `DimSize` (no `=`) is not skipped —
it raises `InvalidMd`.  The spec-faithful variant `fromBufferFirstSplit`
disagrees with the source on both inputs. -/
theorem medviz_C6_counterexample :
    (VolumeMd.from_buffer "DimSize" = .error (.invalidMd 1)
        ∧ fromBufferFirstSplit "DimSize" = .error .keyNotFound)
      ∧ (VolumeMd.from_buffer "DimSize = 1 2 3 = 4" = .ok ⟨1, 2, 3⟩
        ∧ fromBufferFirstSplit "DimSize = 1 2 3 = 4" = .error (.tooManyValues 1)) := by
  refine ⟨⟨?_, ?_⟩, ?_, ?_⟩ <;> decide

/-- C6 (amended): every line whose text before the first `=` does not trim to
`DimSize` is skipped without an error; the scanner reads only the first two
`=`-separated pieces of a line (the value is the text between the first and
second `=`; anything after a second `=` is ignored), so two lines agreeing on
those two pieces behave identically; and a line containing no `=` at all has
its whole trimmed text act as the key: it is skipped when that text is not
`DimSize`, while a bare `DimSize` line raises `InvalidMd` (or `DuplicateKey`
when an entry was already accepted) instead of being skipped. -/
theorem medviz_C6_amended :
    (∀ (line : List Char) (n : Nat) (res : Option VolumeMd),
        lineKey line ≠ "DimSize".data → lineStep line n res = .ok res)
      ∧ (∀ (l1 l2 : List Char) (n : Nat) (res : Option VolumeMd),
          (splitPred (fun c => c = '=') l1).take 2
              = (splitPred (fun c => c = '=') l2).take 2 →
          lineStep l1 n res = lineStep l2 n res)
      ∧ ∀ (line : List Char) (n : Nat), (∀ c ∈ line, c ≠ '=') →
          (trimChars line ≠ "DimSize".data →
            ∀ res, lineStep line n res = .ok res)
          ∧ (trimChars line = "DimSize".data →
            lineStep line n none = .error (.invalidMd n)
              ∧ ∀ r, lineStep line n (some r) = .error (.duplicateKey n)) := by
  refine ⟨fun line n res h => lineStep_skip line n res h, ?_, ?_⟩
  · intro l1 l2 n res htake
    have h0 : (splitPred (fun c => c = '=') l1)[0]?
        = (splitPred (fun c => c = '=') l2)[0]? := by
      have hc := congrArg (fun l => l[0]?) htake
      simpa [List.getElem?_take] using hc
    have h1 : (splitPred (fun c => c = '=') l1).get? 1
        = (splitPred (fun c => c = '=') l2).get? 1 := by
      have hc := congrArg (fun l => l[1]?) htake
      simpa [List.getElem?_take, List.get?_eq_getElem?] using hc
    have hk : lineKey l1 = lineKey l2 := by
      rw [lineKey, lineKey, List.headD_eq_head?_getD, List.headD_eq_head?_getD,
        List.head?_eq_getElem?, List.head?_eq_getElem?, h0]
    simp only [lineStep, hk, h1]
  · intro line n hno
    have hsp : splitPred (fun c => c = '=') line = [line] :=
      splitPred_no_sep _ line (fun c hc => decide_eq_false (hno c hc))
    have hk : lineKey line = trimChars line := by
      rw [lineKey, hsp]
      rfl
    constructor
    · intro hne res
      exact lineStep_skip line n res (by rw [hk]; exact hne)
    · intro heq
      constructor
      · simp only [lineStep]
        rw [if_neg (by rw [hk, heq]; decide), if_neg (by simp [hk, heq]),
          if_neg (by simp), hsp]
        rfl
      · intro r
        exact lineStep_dup line n r (by rw [hk]; exact heq)

/-- Witness for C6 (amended): a skipped unrelated line; two lines differing
only after their second `=` behave identically; a bare `DimSize` line raises
`InvalidMd`. -/
theorem medviz_C6_amended_witness :
    lineStep "Foo = 1".data 5 none = .ok none
      ∧ lineStep "DimSize = 1 2 3 = junk".data 1 none
          = lineStep "DimSize = 1 2 3 = 4".data 1 none
      ∧ lineStep "DimSize".data 3 none = .error (.invalidMd 3) := by
  refine ⟨medviz_C6_amended.1 "Foo = 1".data 5 none (by decide),
    medviz_C6_amended.2.1 "DimSize = 1 2 3 = junk".data "DimSize = 1 2 3 = 4".data 1 none
      (by decide),
    (medviz_C6_amended.2.2 "DimSize".data 3 (by decide)).2 (by decide) |>.1⟩

/-- C7: once a valid `DimSize` entry has been accepted, any later line whose
trimmed key is `DimSize` — well-formed or not — makes `from_buffer` fail with
`DuplicateKey` carrying the later line's 1-based number, not the first's. -/
theorem medviz_C7 (buffer : String) (pre mid post : List (List Char))
    (dl dup : List Char) (md : VolumeMd)
    (hsplit : splitPred (fun c => c = '\n') buffer.data
        = pre ++ dl :: (mid ++ dup :: post))
    (hpre : ∀ l ∈ pre, lineKey l ≠ "DimSize".data)
    (hmid : ∀ l ∈ mid, lineKey l ≠ "DimSize".data)
    (hdl : lineStep dl (pre.length + 1) none = .ok (some md))
    (hdup : lineKey dup = "DimSize".data) :
    VolumeMd.from_buffer buffer
      = .error (.duplicateKey (pre.length + 1 + mid.length + 1)) := by
  rw [VolumeMd.from_buffer, hsplit, processLines_skip pre _ 1 none hpre,
    Nat.add_comm 1 pre.length, processLines, hdl]
  show processLines (mid ++ dup :: post) (pre.length + 1 + 1) (some md) = _
  rw [processLines_skip mid (dup :: post) _ _ hmid, processLines,
    lineStep_dup dup _ md hdup]
  show Except.error (MdErr.duplicateKey (pre.length + 1 + 1 + mid.length)) = _
  congr 2
  omega

/-- Witness for C7: the duplicate is even malformed (a bare `DimSize` line,
no `=`), yet the scan fails with `DuplicateKey` at its line number, 4. -/
theorem medviz_C7_witness :
    VolumeMd.from_buffer "NDims = 3\nDimSize = 512 512 333\nFoo = 1\nDimSize"
      = .error (.duplicateKey 4) := by
  exact medviz_C7 "NDims = 3\nDimSize = 512 512 333\nFoo = 1\nDimSize"
    ["NDims = 3".data] ["Foo = 1".data] [] "DimSize = 512 512 333".data "DimSize".data
    ⟨512, 512, 333⟩ (by decide) (by decide) (by decide) (by decide) (by decide)

set_option maxHeartbeats 16000000 in
set_option maxRecDepth 10000 in
/-- C8: `value_normalized` — the binary32 computation
`round(value / 4095.0 * 255.0)` modelled by `normalize`/`normalizedDyadic` —
maps 0 to 0, 2048 to 128 and 4095 to 255, is monotone non-decreasing on the
voxel range, and the computed float (the dyadic value before rounding) always
lies in `[0, 255]`, so the cast to `u8` never overflows. -/
theorem medviz_C8 :
    Voxel.value_normalized 0 = 0 ∧ Voxel.value_normalized 2048 = 128
      ∧ Voxel.value_normalized 4095 = 255
      ∧ (∀ a b, a ≤ b → b ≤ 4095 → Voxel.value_normalized a ≤ Voxel.value_normalized b)
      ∧ ∀ v, v ≤ 4095 →
          (normalizedDyadic v).1 ≤ 255 * 2 ^ (normalizedDyadic v).2
            ∧ Voxel.value_normalized v ≤ 255 := by
  have hadj : allBelow (fun v => decide (normalize v ≤ normalize (v + 1))) 13 0 4095
      = true := by rfl
  have hrng : allBelow (fun v => decide ((normalizedDyadic v).1
      ≤ 255 * 2 ^ (normalizedDyadic v).2 ∧ normalize v ≤ 255)) 13 0 4096 = true := by rfl
  have hadj2 : ∀ v, v < 4095 → normalize v ≤ normalize (v + 1) := by
    intro v hv
    have hp := allBelow_sound _ 13 0 4095 hadj v hv
    rw [Nat.zero_add] at hp
    exact of_decide_eq_true hp
  have hmono : ∀ d a, a + d ≤ 4095 → normalize a ≤ normalize (a + d) := by
    intro d
    induction d with
    | zero => intro a _; exact Nat.le_refl _
    | succ d ih =>
      intro a ha
      have h1 : normalize a ≤ normalize (a + d) := ih a (by omega)
      have h2 : normalize (a + d) ≤ normalize (a + d + 1) := hadj2 (a + d) (by omega)
      exact Nat.le_trans h1 h2
  refine ⟨by rfl, by rfl, by rfl, ?_, ?_⟩
  · intro a b hab hb
    have hd := hmono (b - a) a (by omega)
    have e : a + (b - a) = b := by omega
    rw [e] at hd
    exact hd
  · intro v hv
    have hp := allBelow_sound _ 13 0 4096 hrng v (by omega)
    rw [Nat.zero_add] at hp
    exact of_decide_eq_true hp

/-- Witness for C8: concrete instances of the monotonicity and range
statements. -/
theorem medviz_C8_witness :
    Voxel.value_normalized 1000 ≤ Voxel.value_normalized 3000
      ∧ (normalizedDyadic 3000).1 ≤ 255 * 2 ^ (normalizedDyadic 3000).2
      ∧ Voxel.value_normalized 3000 ≤ 255 := by
  have h1 := medviz_C8.2.2.2.1 1000 3000 (by omega) (by omega)
  have h2 := medviz_C8.2.2.2.2 3000 (by omega)
  exact ⟨h1, h2.1, h2.2⟩

/-- C9: `Volume` construction never inspects sample values (it succeeds for
any byte contents of the right length), and during Z-frame iteration the
`i`-th element is `Err(VoxelValueOutOfRange v)` exactly when the little-endian
value `v` decoded at that element's position exceeds 4095, and `Ok v`
otherwise, independently per element. -/
theorem medviz_C9 (md : VolumeMd) (data : List Nat) :
    (data.length = md.xdim * md.ydim * md.zdim * Voxel.size →
        Volume.from_slice md data = .ok ⟨md, data⟩)
      ∧ ∀ vol k i, Volume.from_slice md data = .ok vol → k < md.zdim →
          i < md.xdim * md.ydim →
          ∃ l, vol.zframe k = some l ∧
            l[i]? = some
              ((if 4095 < data.getD (2 * (k * (md.xdim * md.ydim) + i)) 0
                    + 256 * data.getD (2 * (k * (md.xdim * md.ydim) + i) + 1) 0
                then .error (.voxelValueOOR (data.getD (2 * (k * (md.xdim * md.ydim) + i)) 0
                    + 256 * data.getD (2 * (k * (md.xdim * md.ydim) + i) + 1) 0))
                else .ok (data.getD (2 * (k * (md.xdim * md.ydim) + i)) 0
                    + 256 * data.getD (2 * (k * (md.xdim * md.ydim) + i) + 1) 0)),
               i % md.xdim, i / md.xdim) := by
  constructor
  · intro hl
    have hmod : data.length % Voxel.size = 0 := by
      rw [hl]
      exact Nat.mul_mod_left _ _
    simp [Volume.from_slice, hl, hmod]
  · intro vol k i hok hk hi
    obtain ⟨rfl, hlen⟩ := from_slice_ok hok
    refine ⟨_, zframe_closed md data k hlen hk, ?_⟩
    simp only [List.getElem?_map, List.getElem?_range hi, Option.map_some']
    rfl

/-- Witness for C9: an out-of-range first sample surfaces as a per-element
error while the second element decodes fine. -/
theorem medviz_C9_witness :
    ∃ l, Volume.zframe ⟨⟨2, 1, 1⟩, [255, 255, 7, 0]⟩ 0 = some l
      ∧ l[0]? = some (.error (.voxelValueOOR 65535), 0, 0) := by
  obtain ⟨l, h1, h2⟩ := (medviz_C9 ⟨2, 1, 1⟩ [255, 255, 7, 0]).2
    ⟨⟨2, 1, 1⟩, [255, 255, 7, 0]⟩ 0 0 (by decide) (by decide) (by decide)
  refine ⟨l, h1, ?_⟩
  rw [h2]
  decide

/-- C10: a volume with `zdim = 0` yields the empty sequence from `xframe` and
`yframe` at every index (even out-of-range ones) without a bounds fault, and a
volume with `xdim * ydim = 0` yields the empty sequence from `zframe` at every
index. -/
theorem medviz_C10 (md : VolumeMd) (data : List Nat) (vol : Volume)
    (hok : Volume.from_slice md data = .ok vol) :
    (md.zdim = 0 → ∀ i, vol.xframe i = some [] ∧ vol.yframe i = some [])
      ∧ (md.xdim * md.ydim = 0 → ∀ i, vol.zframe i = some []) := by
  obtain ⟨rfl, hlen⟩ := from_slice_ok hok
  constructor
  · intro hz i
    constructor
    · simp [Volume.xframe, hz, collect]
    · simp [Volume.yframe, hz, collect]
  · intro hxy i
    have hzl : md.zframe_len = 0 := hxy
    simp [Volume.zframe, Volume.zframe_iter, Volume.zframe_bytes, hzl, sliceRange,
      chunks2, collect]

/-- Witness for C10: concrete degenerate volumes with `zdim = 0` and with
`xdim = 0`. -/
theorem medviz_C10_witness :
    Volume.xframe ⟨⟨3, 4, 0⟩, []⟩ 99 = some []
      ∧ Volume.yframe ⟨⟨3, 4, 0⟩, []⟩ 99 = some []
      ∧ Volume.zframe ⟨⟨0, 4, 5⟩, []⟩ 99 = some [] := by
  have h1 := medviz_C10 ⟨3, 4, 0⟩ [] ⟨⟨3, 4, 0⟩, []⟩ (by decide)
  have h2 := medviz_C10 ⟨0, 4, 5⟩ [] ⟨⟨0, 4, 5⟩, []⟩ (by decide)
  exact ⟨(h1.1 rfl 99).1, (h1.1 rfl 99).2, h2.2 rfl 99⟩

end Medviz
